import Mathlib

/-!
Verification of the Sentinel 384-bin routing harness
(`src/tools/bin_harness_384.py`) and the puzzle-state identity module
(`src/tools/msq_state.py`).

Python `str` values are modelled as `List Char` (a Python string is a
sequence of Unicode code points, and Lean `Char` is exactly a Unicode
scalar value).  Python `float` results of the statistics are modelled
exactly: the Gini coefficient is a ratio of integers and is modelled in
`ℚ`; the Shannon entropy involves `math.log` and is modelled in `ℝ`.
Unicode NFKC normalization (`unicodedata.normalize("NFKC", ·)`) is an
external library call; every definition that uses it takes the
normalization map `nfkc : Str → Str` as an explicit parameter, so all
theorems hold for an arbitrary such map (hypotheses state the standard
properties of NFKC where a proof needs them).
-/

namespace Sentinel

/-- A Python string: a finite sequence of Unicode code points. -/
abbrev Str := List Char

/-- Python whitespace test used by `str.strip`. -/
def isPySpace (c : Char) : Bool := c.isWhitespace

/-- `str.lstrip()`: drop leading whitespace. -/
def pyLStrip (s : Str) : Str := s.dropWhile isPySpace

/-- `str.rstrip()`: drop trailing whitespace. -/
def pyRStrip (s : Str) : Str := (s.reverse.dropWhile isPySpace).reverse

/-- `str.strip()`: drop leading and trailing whitespace. -/
def pyStrip (s : Str) : Str := pyLStrip (pyRStrip s)

/-! ## UTF-8 encoding (`str.encode("utf-8")`) -/

/-- UTF-8 encoding of one Unicode scalar value, as a list of bytes. -/
def utf8EncodeChar (c : Char) : List Nat :=
  let n := c.toNat
  if n < 128 then [n]
  else if n < 2048 then [192 + n / 64, 128 + n % 64]
  else if n < 65536 then [224 + n / 4096, 128 + (n / 64) % 64, 128 + n % 64]
  else [240 + n / 262144, 128 + (n / 4096) % 64, 128 + (n / 64) % 64, 128 + n % 64]

/-- UTF-8 encoding of a string, as a list of bytes. -/
def utf8Bytes (s : Str) : List Nat := (s.map utf8EncodeChar).flatten

/-! ## SHA-256 (`hashlib.sha256`), per FIPS 180-4.
32-bit words are `Nat` values kept below `2 ^ 32` explicitly. -/

/-- Truncate to a 32-bit word. -/
def w32 (x : Nat) : Nat := x % 4294967296

/-- Right-rotation of a 32-bit word. -/
def rotr (n x : Nat) : Nat := x / 2 ^ n + (x % 2 ^ n) * 2 ^ (32 - n)

/-- 32-bit bitwise complement. -/
def not32 (x : Nat) : Nat := x ^^^ 4294967295

def shaCh (x y z : Nat) : Nat := (x &&& y) ^^^ (not32 x &&& z)

def shaMaj (x y z : Nat) : Nat := (x &&& y) ^^^ (x &&& z) ^^^ (y &&& z)

def bigSigma0 (x : Nat) : Nat := rotr 2 x ^^^ rotr 13 x ^^^ rotr 22 x

def bigSigma1 (x : Nat) : Nat := rotr 6 x ^^^ rotr 11 x ^^^ rotr 25 x

def smallSigma0 (x : Nat) : Nat := rotr 7 x ^^^ rotr 18 x ^^^ x / 2 ^ 3

def smallSigma1 (x : Nat) : Nat := rotr 17 x ^^^ rotr 19 x ^^^ x / 2 ^ 10

/-- The 64 SHA-256 round constants. -/
def K256 : List Nat :=
  [1116352408, 1899447441, 3049323471, 3921009573, 961987163,
   1508970993, 2453635748, 2870763221, 3624381080, 310598401,
   607225278, 1426881987, 1925078388, 2162078206, 2614888103,
   3248222580, 3835390401, 4022224774, 264347078, 604807628,
   770255983, 1249150122, 1555081692, 1996064986, 2554220882,
   2821834349, 2952996808, 3210313671, 3336571891, 3584528711,
   113926993, 338241895, 666307205, 773529912, 1294757372,
   1396182291, 1695183700, 1986661051, 2177026350, 2456956037,
   2730485921, 2820302411, 3259730800, 3345764771, 3516065817,
   3600352804, 4094571909, 275423344, 430227734, 506948616,
   659060556, 883997877, 958139571, 1322822218, 1537002063,
   1747873779, 1955562222, 2024104815, 2227730452, 2361852424,
   2428436474, 2756734187, 3204031479, 3329325298]

/-- SHA-256 initial hash state. -/
def sha256Init : List Nat :=
  [1779033703, 3144134277, 1013904242, 2773480762,
   1359893119, 2600822924, 528734635, 1541459225]

/-- Big-endian 8-byte encoding of the bit length. -/
def lenBytes (n : Nat) : List Nat :=
  [n / 2 ^ 56 % 256, n / 2 ^ 48 % 256, n / 2 ^ 40 % 256, n / 2 ^ 32 % 256,
   n / 2 ^ 24 % 256, n / 2 ^ 16 % 256, n / 2 ^ 8 % 256, n % 256]

/-- SHA-256 padding: append `0x80`, zeros to 56 mod 64, then the 64-bit
big-endian message bit length. -/
def sha256Pad (msg : List Nat) : List Nat :=
  let L := msg.length
  msg ++ 128 :: List.replicate ((119 - L % 64) % 64) 0 ++ lenBytes (8 * L)

/-- Split a byte list into chunks of 64 bytes. -/
def chunks64 : List Nat → List (List Nat)
  | [] => []
  | x :: xs => ((x :: xs).take 64) :: chunks64 (xs.drop 63)
termination_by l => l.length
decreasing_by
  simp only [List.length_drop, List.length_cons]
  omega

/-- Pack bytes into big-endian 32-bit words. -/
def bytesToWords : List Nat → List Nat
  | b0 :: b1 :: b2 :: b3 :: rest =>
      (((b0 * 256 + b1) * 256 + b2) * 256 + b3) :: bytesToWords rest
  | _ => []

/-- Extend the 16 message-schedule words by `t` further words. -/
def extendW (ws : List Nat) : Nat → List Nat
  | 0 => ws
  | t + 1 =>
      let p := extendW ws t
      let L := p.length
      p ++ [w32 (p.getD (L - 16) 0 + smallSigma0 (p.getD (L - 15) 0) +
                 p.getD (L - 7) 0 + smallSigma1 (p.getD (L - 2) 0))]

/-- One SHA-256 round on the 8-word working state. -/
def shaRound (st : List Nat) (kw : Nat × Nat) : List Nat :=
  match st with
  | [a, b, c, d, e, f, g, h] =>
      let t1 := w32 (h + bigSigma1 e + shaCh e f g + kw.1 + kw.2)
      let t2 := w32 (bigSigma0 a + shaMaj a b c)
      [w32 (t1 + t2), a, b, c, w32 (d + t1), e, f, g]
  | other => other

/-- Compress one 64-byte block into the running hash state. -/
def compressBlock (hs : List Nat) (block : List Nat) : List Nat :=
  let ws := extendW (bytesToWords block) 48
  let st := (K256.zip ws).foldl shaRound hs
  (hs.zip st).map (fun p => w32 (p.1 + p.2))

/-- SHA-256 of a byte list, as eight 32-bit words. -/
def sha256Words (msg : List Nat) : List Nat :=
  (chunks64 (sha256Pad msg)).foldl compressBlock sha256Init

/-- Lowercase hex digits. -/
def hexDigitChar (d : Nat) : Char := (("0123456789abcdef").data).getD d '0'

/-- A 32-bit word as 8 lowercase hex characters, big-endian. -/
def wordToHex (w : Nat) : List Char :=
  [hexDigitChar (w / 2 ^ 28 % 16), hexDigitChar (w / 2 ^ 24 % 16),
   hexDigitChar (w / 2 ^ 20 % 16), hexDigitChar (w / 2 ^ 16 % 16),
   hexDigitChar (w / 2 ^ 12 % 16), hexDigitChar (w / 2 ^ 8 % 16),
   hexDigitChar (w / 2 ^ 4 % 16), hexDigitChar (w % 16)]

/-- `sha256_hex` from `bin_harness_384.py` (also `msq_state.py`):
hex-encoded SHA-256 digest of the UTF-8 bytes of the string. -/
def sha256_hex (text : Str) : Str :=
  ((sha256Words (utf8Bytes text)).map wordToHex).flatten

/-- Value of one hex digit, as used by Python `int(s, 16)` on the
lowercase hex digests produced by `sha256_hex`. -/
def hexDigitVal (c : Char) : Nat :=
  if 97 ≤ c.toNat then c.toNat - 87
  else if 65 ≤ c.toNat then c.toNat - 55
  else c.toNat - 48

/-- Python `int(s, 16)` on a hex string. -/
def hexVal (s : Str) : Nat := s.foldl (fun acc c => 16 * acc + hexDigitVal c) 0

/-! ## `bin_harness_384.py` -/

def DEFAULT_N_BINS : Nat := 384

def DEFAULT_SCRIPT : Str := ("bin_harness_384").data

def DEFAULT_UNIT_TYPE : Str := ("TRIPLET").data

def DEFAULT_CANON_VERSION : Str := ("v1").data

/-- `normalize_text`: `unicodedata.normalize("NFKC", text.strip())`.
The NFKC map is passed explicitly as `nfkc`. -/
def normalize_text (nfkc : Str → Str) (text : Str) : Str := nfkc (pyStrip text)

/-- `canonical_string`:
`f"CANON|{version}|{dataset_id}|{script}|{unit_type}|{normalize_text(payload)}"`. -/
def canonical_string (nfkc : Str → Str)
    (dataset_id script unit_type payload : Str)
    (version : Str) : Str :=
  ("CANON|").data ++ version ++ ("|").data ++ dataset_id ++ ("|").data ++
    script ++ ("|").data ++ unit_type ++ ("|").data ++ normalize_text nfkc payload

/-- `route_bin`: `hashed = sha256_hex(canon); return hashed, int(hashed, 16) % n_bins`. -/
def route_bin (canon : Str) (n_bins : Nat) : Str × Nat :=
  let hashed := sha256_hex canon
  (hashed, hexVal hashed % n_bins)

/-- `shannon_entropy`: the loop starts from `0.0`, skips zero counts and
subtracts `p_i * math.log(p_i)` for each nonzero count, so it computes
the negated sum below; zero total returns `0.0`. -/
noncomputable def shannon_entropy (counts : List Nat) : ℝ :=
  let total := counts.sum
  if total = 0 then 0
  else
    -((counts.map (fun count : Nat =>
        if count = 0 then (0 : ℝ)
        else ((count : ℝ) / (total : ℝ)) * Real.log ((count : ℝ) / (total : ℝ)))).sum)

/-- `gini_coefficient`: `0.0` when fewer than 2 entries or zero total,
otherwise `sum((2*i - n + 1) * val for i, val in enumerate(sorted(counts)))`
divided by `n * total`.  The Python float ratio of two integers is
modelled exactly in `ℚ`. -/
def gini_coefficient (counts : List Nat) : ℚ :=
  let n := counts.length
  if n < 2 then 0
  else
    let total := counts.sum
    if total = 0 then 0
    else
      let sorted_counts := counts.insertionSort (· ≤ ·)
      let numerator : ℤ :=
        ((sorted_counts.enum).map
          (fun p => (2 * (p.1 : ℤ) - (n : ℤ) + 1) * (p.2 : ℤ))).sum
      (numerator : ℚ) / ((n : ℚ) * (total : ℚ))

/-- The sort order of `ranked_bins`: Python sorts `enumerate(counts)`
ascending by the key `(-count, index)`, i.e. descending count with ties
broken by ascending bucket index. -/
def rankRel (a b : Nat × Nat) : Prop := b.2 < a.2 ∨ (a.2 = b.2 ∧ a.1 ≤ b.1)

instance : DecidableRel rankRel := fun a b =>
  inferInstanceAs (Decidable (b.2 < a.2 ∨ (a.2 = b.2 ∧ a.1 ≤ b.1)))

instance : IsTrans (Nat × Nat) rankRel where
  trans a b c hab hbc := by
    rcases hab with h | ⟨h1, h2⟩ <;> rcases hbc with h' | ⟨h1', h2'⟩ <;>
      simp only [rankRel] <;> omega

instance : IsTotal (Nat × Nat) rankRel where
  total a b := by
    simp only [rankRel]
    omega

instance : IsAntisymm (Nat × Nat) rankRel where
  antisymm a b hab hba := by
    rcases a with ⟨i, c⟩
    rcases b with ⟨j, d⟩
    rcases hab with h | ⟨h1, h2⟩ <;> rcases hba with h' | ⟨h1', h2'⟩ <;>
      simp_all <;> omega

/-- `ranked_bins`: sort `enumerate(counts)` by `(-count, index)` and keep
the first `k` pairs (the Python default for `k` is 10). -/
def ranked_bins (counts : List Nat) (k : Nat) : List (Nat × Nat) :=
  ((counts.enum).insertionSort rankRel).take k

/-- All 2-combinations of a list, in the order `itertools.combinations`
emits them (each pair in input order). -/
def combinations2 : List α → List (α × α)
  | [] => []
  | x :: xs => (xs.map (fun y => (x, y))) ++ combinations2 xs

/-- All 3-combinations of a list, in the order `itertools.combinations`
emits them (each triple in input order). -/
def combinations3 : List α → List (α × α × α)
  | [] => []
  | x :: xs => ((combinations2 xs).map (fun p => (x, p.1, p.2))) ++ combinations3 xs

/-- `f"{a}-{b}-{c}"`. -/
def joinTriplet (a b c : Str) : Str := a ++ ("-").data ++ b ++ ("-").data ++ c

/-- `generate_exhaustive_triplets`: `f"{a}-{b}-{c}"` for every
`a, b, c` in `combinations(alphabet, 3)` — no normalization, no sorting. -/
def generate_exhaustive_triplets (alphabet : List Str) : List Str :=
  (combinations3 alphabet).map (fun t => joinTriplet t.1 t.2.1 t.2.2)

/-- One random-mode payload: normalize the three drawn symbols, sort the
normalized tokens lexicographically, join with `"-"`. -/
def randomPayload (nfkc : Str → Str) (t : Str × Str × Str) : Str :=
  let tokens := ([normalize_text nfkc t.1, normalize_text nfkc t.2.1,
                  normalize_text nfkc t.2.2]).insertionSort (· ≤ ·)
  List.intercalate (("-").data) tokens

/-- The body of the `generate_random_triplets` generator: the two
validation checks run first, then the loop draws `n` triples (the seeded
`rng.sample` draws are modelled as the explicit stream `draws`) and
yields one sorted-normalized payload per draw. -/
def generate_random_triplets_body (nfkc : Str → Str) (alphabet : List Str)
    (n : Int) (draws : Nat → Str × Str × Str) : Except Str (List Str) :=
  if n < 0 then Except.error (("n must be >= 0").data)
  else if alphabet.length < 3 then
    Except.error (("alphabet must contain at least 3 symbols").data)
  else Except.ok ((List.range n.toNat).map (fun i => randomPayload nfkc (draws i)))

/-- Calling the Python generator function `generate_random_triplets`:
because the body contains `yield`, the call runs none of the body and
returns a suspended generator; the body (including its validation
checks) executes only when the generator is first advanced.  The call
itself therefore never raises. -/
def generate_random_triplets (nfkc : Str → Str) (alphabet : List Str)
    (n : Int) (draws : Nat → Str × Str × Str) :
    Except Str (Unit → Except Str (List Str)) :=
  Except.ok (fun _ => generate_random_triplets_body nfkc alphabet n draws)

/-- One `top_bins` entry of a run record. -/
structure TopBin where
  bin : Nat
  count : Nat
  member_ids : List Str

/-- The `HarnessRun` dataclass.  `entropy` is modelled in `ℝ` and the
exact integer ratios `empty_ratio` and `gini` in `ℚ`. -/
structure HarnessRun where
  schema_version : Str
  run_id : Str
  created_at : Str
  dataset_id : Str
  mode : Str
  n_bins : Nat
  N : Nat
  empty_bins : Nat
  empty_ratio : ℚ
  entropy : ℝ
  gini : ℚ
  max_load : Nat
  collision_bins : Nat
  top_bins : List TopBin
  bin_counts : Option (List Nat)
  script : Str
  unit_type : Str
  canon_version : Str
  seed : Option Int

/-- The accumulator threaded through the payload loop of `compute_run`:
the occupancy counts, the per-bucket member samples (`members` is the
Python dict as a total function defaulting to `[]`), and the unit count. -/
structure AggSt where
  counts : List Nat
  members : Nat → List Str
  n_units : Nat

/-- One iteration of the payload loop of `compute_run`. -/
def compute_step (nfkc : Str → Str) (dataset_id : Str) (n_bins top_member_limit : Nat)
    (st : AggSt) (payload : Str) : AggSt :=
  let canon := canonical_string nfkc dataset_id DEFAULT_SCRIPT DEFAULT_UNIT_TYPE
    payload DEFAULT_CANON_VERSION
  let routed := route_bin canon n_bins
  let identifier := routed.1
  let bin_index := routed.2
  { counts := st.counts.set bin_index (st.counts.getD bin_index 0 + 1)
    members := fun j =>
      if j = bin_index then
        if (st.members bin_index).length < top_member_limit then
          st.members bin_index ++ [identifier]
        else st.members bin_index
      else st.members j
    n_units := st.n_units + 1 }

/-- `compute_run`.  The wall-clock timestamp `utc_now_iso()` is passed in
as `now_iso`; `top_member_limit` defaults to 25 in Python and the
`ranked_bins` call uses `k=10`. -/
noncomputable def compute_run (nfkc : Str → Str) (dataset_id mode : Str)
    (payloads : List Str) (n_bins : Nat) (include_counts : Bool)
    (seed : Option Int) (top_member_limit : Nat) (now_iso : Str) : HarnessRun :=
  let st := payloads.foldl (compute_step nfkc dataset_id n_bins top_member_limit)
    ⟨List.replicate n_bins 0, fun _ => [], 0⟩
  let counts := st.counts
  let empty_bins := counts.count 0
  let max_load := counts.foldr max 0
  let top_bins := (ranked_bins counts 10).map
    (fun p => { bin := p.1, count := p.2, member_ids := st.members p.1 : TopBin })
  { schema_version := ("bin_harness_run_v1").data
    run_id := ("RUN-BIN384-").data ++
      ((sha256_hex (dataset_id ++ ("|").data ++ mode ++ ("|").data ++ now_iso)).take 12).map
        Char.toUpper
    created_at := now_iso
    dataset_id := dataset_id
    mode := mode
    n_bins := n_bins
    N := st.n_units
    empty_bins := empty_bins
    empty_ratio := if n_bins = 0 then 0 else (empty_bins : ℚ) / (n_bins : ℚ)
    entropy := shannon_entropy counts
    gini := gini_coefficient counts
    max_load := max_load
    collision_bins := counts.countP (fun c => 2 ≤ c)
    top_bins := top_bins
    bin_counts := if include_counts then some counts else none
    script := DEFAULT_SCRIPT
    unit_type := DEFAULT_UNIT_TYPE
    canon_version := DEFAULT_CANON_VERSION
    seed := seed }

/-- The stream of `(identifier, bin_index)` pairs `compute_run` obtains
from routing the canonicalized payloads, in arrival order. -/
def routedPairs (nfkc : Str → Str) (dataset_id : Str) (n_bins : Nat)
    (payloads : List Str) : List (Str × Nat) :=
  payloads.map (fun payload =>
    route_bin (canonical_string nfkc dataset_id DEFAULT_SCRIPT DEFAULT_UNIT_TYPE
      payload DEFAULT_CANON_VERSION) n_bins)

end Sentinel

/-! ## `msq_state.py` -/

namespace MSQ

open Sentinel

/-- `_norm`: `unicodedata.normalize("NFKC", s.strip())`. -/
def _norm (nfkc : Str → Str) (s : Str) : Str := nfkc (pyStrip s)

/-- The `MSQState` dataclass.  Its `__post_init__` validity condition
(tiles and locks both of length `size * size`) is stated separately as
`MSQState.Valid`. -/
structure MSQState where
  size : Nat
  target_sum : Int
  ruleset_id : Str
  tiles : List (Option Int)
  locks : List Bool

/-- The `__post_init__` check of `MSQState`. -/
def MSQState.Valid (st : MSQState) : Prop :=
  st.tiles.length = st.size * st.size ∧ st.locks.length = st.size * st.size

/-- The serialized tile grid: each tile as its decimal string, `None`
rendered as `"_"`, comma-joined. -/
def tileGrid (tiles : List (Option Int)) : Str :=
  List.intercalate ((",").data)
    (tiles.map (fun t => match t with
      | none => ("_").data
      | some v => (toString v).data))

/-- The serialized lock bits: one `'1'`/`'0'` per tile. -/
def lockBits (locks : List Bool) : Str :=
  locks.map (fun b => if b then '1' else '0')

/-- The tagged string assembled by `canonical_string` before `_norm` is
applied to it. -/
def assembled (state : MSQState) (version : Str) : Str :=
  ("MSQ|").data ++ version ++ ("|N=").data ++ (toString state.size).data ++
    ("|T=").data ++ (toString state.target_sum).data ++
    ("|R=").data ++ state.ruleset_id ++
    ("|G=").data ++ tileGrid state.tiles ++
    ("|L=").data ++ lockBits state.locks

/-- `canonical_string` of `msq_state.py`: `_norm` applied to the entire
assembled tagged string (Python default `version="v1"`). -/
def canonical_string (nfkc : Str → Str) (state : MSQState) (version : Str) : Str :=
  _norm nfkc (assembled state version)

/-- `state_id_and_bin`: hash the canonical string (at the default
version `"v1"`) and reduce modulo `n_bins`. -/
def state_id_and_bin (nfkc : Str → Str) (state : MSQState) (n_bins : Nat) :
    Str × Nat :=
  let canon := canonical_string nfkc state (("v1").data)
  let hid := sha256_hex canon
  (hid, hexVal hid % n_bins)

end MSQ


/-! ## Theorems -/

namespace Sentinel

/-- C1: `route_bin(s, n_bins)` with `n_bins > 0` returns the pair whose
first component is the hex-encoded SHA-256 digest of the UTF-8 bytes of
`s` and whose second component is that identifier read as a base-16
integer modulo `n_bins`; the bucket index is always below `n_bins`, and
two calls on the same arguments return identical pairs. -/
theorem route_bin_spec (s : Str) (n_bins : Nat) (hn : 0 < n_bins) :
    route_bin s n_bins = (sha256_hex s, hexVal (sha256_hex s) % n_bins) ∧
    (route_bin s n_bins).2 < n_bins ∧
    (∀ s' m, s' = s → m = n_bins → route_bin s' m = route_bin s n_bins) := by
  refine ⟨rfl, ?_, ?_⟩
  · exact Nat.mod_lt _ hn
  · rintro s' m rfl rfl
    rfl

theorem route_bin_spec_witness :
    0 < 384 ∧ (route_bin (("x").data) 384).2 < 384 :=
  ⟨by decide, (route_bin_spec (("x").data) 384 (by decide)).2.1⟩

/-- C5 counterexample: at the concrete invalid input `n = -1` (with an
empty alphabet), the call `generate_random_triplets(...)` itself does
not raise — Python runs none of a generator function's body at call
time, so the call returns a suspended generator — while the body, run
on first consumption, is the step that raises the invalid-argument
error. -/
theorem generate_random_triplets_call_returns :
    generate_random_triplets (fun s => s) [] (-1) (fun _ => ([], [], [])) =
      Except.ok
        (fun _ => generate_random_triplets_body (fun s => s) [] (-1) (fun _ => ([], [], []))) ∧
    generate_random_triplets_body (fun s => s) [] (-1) (fun _ => ([], [], [])) =
      Except.error (("n must be >= 0").data) :=
  ⟨rfl, rfl⟩

/-- C5 (amended): whenever `n < 0` or the alphabet has fewer than 3
symbols, the invalid-argument error is signalled when the generator is
first consumed (the first `next()` runs the body, which raises), not by
the call `generate_random_triplets(...)` itself, which always returns a
suspended generator without raising. -/
theorem generate_random_triplets_invalid (nfkc : Str → Str) (alphabet : List Str)
    (n : Int) (draws : Nat → Str × Str × Str)
    (h : n < 0 ∨ alphabet.length < 3) :
    generate_random_triplets nfkc alphabet n draws =
      Except.ok (fun _ => generate_random_triplets_body nfkc alphabet n draws) ∧
    ∃ e, generate_random_triplets_body nfkc alphabet n draws = Except.error e := by
  refine ⟨rfl, ?_⟩
  unfold generate_random_triplets_body
  rcases h with h | h
  · exact ⟨("n must be >= 0").data, by simp [h]⟩
  · by_cases hn : n < 0
    · exact ⟨("n must be >= 0").data, by simp [hn]⟩
    · exact ⟨("alphabet must contain at least 3 symbols").data, by simp [hn, h]⟩

theorem generate_random_triplets_invalid_witness :
    ((-1 : Int) < 0 ∨ ([] : List Str).length < 3) ∧
    ∃ e, generate_random_triplets_body (fun s => s) [] (-1) (fun _ => ([], [], [])) =
      Except.error e :=
  ⟨Or.inl (by decide),
    (generate_random_triplets_invalid (fun s => s) [] (-1) (fun _ => ([], [], []))
      (Or.inl (by decide))).2⟩

end Sentinel

namespace Sentinel

/-- Sorting with a linear order is invariant under permutation of the
input: both sorts are sorted and are permutations of each other. -/
theorem insertionSort_eq_of_perm {α : Type} [LinearOrder α] {l₁ l₂ : List α}
    (h : l₁.Perm l₂) : l₁.insertionSort (· ≤ ·) = l₂.insertionSort (· ≤ ·) :=
  List.eq_of_perm_of_sorted
    ((List.perm_insertionSort _ _).trans (h.trans (List.perm_insertionSort _ _).symm))
    (List.sorted_insertionSort _ _) (List.sorted_insertionSort _ _)

/-- A random-mode payload is unchanged when the three drawn symbols are
permuted, because the normalized tokens are sorted before joining. -/
theorem randomPayload_eq_of_perm (nfkc : Str → Str) (t t' : Str × Str × Str)
    (h : ([normalize_text nfkc t'.1, normalize_text nfkc t'.2.1, normalize_text nfkc t'.2.2]).Perm
         [normalize_text nfkc t.1, normalize_text nfkc t.2.1, normalize_text nfkc t.2.2]) :
    randomPayload nfkc t' = randomPayload nfkc t := by
  unfold randomPayload
  rw [insertionSort_eq_of_perm h]

/-- C4: every payload produced by `generate_random_triplets` is the
`'-'`-join of the three drawn symbols' normalized forms sorted
lexicographically (`randomPayload`); for fixed symbols `a, b, c`, all
six draw orders produce the same payload, hence the same canonical
string and the same routed `(identifier, bucket_index)` pair. -/
theorem random_triplets_perm_invariant :
    (∀ (nfkc : Str → Str) (alphabet : List Str) (n : Int)
        (draws : Nat → Str × Str × Str) (l : List Str),
        generate_random_triplets_body nfkc alphabet n draws = Except.ok l →
        ∀ p ∈ l, ∃ i, p = randomPayload nfkc (draws i)) ∧
    (∀ (nfkc : Str → Str) (a b c : Str),
        randomPayload nfkc (a, b, c) = randomPayload nfkc (a, c, b) ∧
        randomPayload nfkc (a, b, c) = randomPayload nfkc (b, a, c) ∧
        randomPayload nfkc (a, b, c) = randomPayload nfkc (b, c, a) ∧
        randomPayload nfkc (a, b, c) = randomPayload nfkc (c, a, b) ∧
        randomPayload nfkc (a, b, c) = randomPayload nfkc (c, b, a)) ∧
    (∀ (nfkc : Str → Str) (ds ver : Str) (n_bins : Nat) (t t' : Str × Str × Str),
        randomPayload nfkc t' = randomPayload nfkc t →
        canonical_string nfkc ds DEFAULT_SCRIPT DEFAULT_UNIT_TYPE (randomPayload nfkc t') ver =
          canonical_string nfkc ds DEFAULT_SCRIPT DEFAULT_UNIT_TYPE (randomPayload nfkc t) ver ∧
        route_bin (canonical_string nfkc ds DEFAULT_SCRIPT DEFAULT_UNIT_TYPE
            (randomPayload nfkc t') ver) n_bins =
          route_bin (canonical_string nfkc ds DEFAULT_SCRIPT DEFAULT_UNIT_TYPE
            (randomPayload nfkc t) ver) n_bins) := by
  refine ⟨?_, ?_, ?_⟩
  · intro nfkc alphabet n draws l hok p hp
    unfold generate_random_triplets_body at hok
    by_cases h1 : n < 0
    · simp [h1] at hok
    · by_cases h2 : alphabet.length < 3
      · simp [h1, h2] at hok
      · simp only [h1, h2, if_false, Except.ok.injEq] at hok
        subst hok
        obtain ⟨i, _, hip⟩ := List.mem_map.mp hp
        exact ⟨i, hip.symm⟩
  · intro nfkc a b c
    refine ⟨?_, ?_, ?_, ?_, ?_⟩ <;>
      refine (randomPayload_eq_of_perm nfkc _ _ ?_).symm
    · exact List.Perm.cons _ (List.Perm.swap _ _ [])
    · exact List.Perm.swap _ _ _
    · exact (List.Perm.cons _ (List.Perm.swap _ _ [])).trans (List.Perm.swap _ _ _)
    · exact (List.Perm.swap _ _ _).trans (List.Perm.cons _ (List.Perm.swap _ _ []))
    · exact ((List.Perm.cons _ (List.Perm.swap _ _ [])).trans
        (List.Perm.swap _ _ _)).trans (List.Perm.cons _ (List.Perm.swap _ _ []))
  · intro nfkc ds ver n_bins t t' hpay
    rw [hpay]
    exact ⟨rfl, rfl⟩

theorem random_triplets_perm_invariant_witness :
    (generate_random_triplets_body (fun s => s)
        [("a").data, ("b").data, ("c").data] 1
        (fun _ => (("b").data, ("c").data, ("a").data)) =
      Except.ok [randomPayload (fun s => s) ((("b").data, ("c").data, ("a").data))] ∧
      ∃ i, randomPayload (fun s => s) ((("b").data, ("c").data, ("a").data)) =
        randomPayload (fun s => s)
          ((fun _ : Nat => (("b").data, ("c").data, ("a").data)) i)) ∧
    randomPayload (fun s => s) ((("x").data, ("y").data, ("z").data)) =
      randomPayload (fun s => s) ((("z").data, ("y").data, ("x").data)) ∧
    route_bin (canonical_string (fun s => s) (("d").data) DEFAULT_SCRIPT DEFAULT_UNIT_TYPE
        (randomPayload (fun s => s) ((("z").data, ("y").data, ("x").data))) DEFAULT_CANON_VERSION) 7 =
      route_bin (canonical_string (fun s => s) (("d").data) DEFAULT_SCRIPT DEFAULT_UNIT_TYPE
        (randomPayload (fun s => s) ((("x").data, ("y").data, ("z").data))) DEFAULT_CANON_VERSION) 7 := by
  refine ⟨?_, ?_, ?_⟩
  · have h : generate_random_triplets_body (fun s => s)
        [("a").data, ("b").data, ("c").data] 1
        (fun _ => (("b").data, ("c").data, ("a").data)) =
        Except.ok [randomPayload (fun s => s) ((("b").data, ("c").data, ("a").data))] := rfl
    exact ⟨h, random_triplets_perm_invariant.1 (fun s => s) _ 1 _ _ h _
      (List.mem_singleton.mpr rfl)⟩
  · exact (random_triplets_perm_invariant.2.1 (fun s => s)
      (("x").data) (("y").data) (("z").data)).2.2.2.2
  · exact (random_triplets_perm_invariant.2.2 (fun s => s) (("d").data)
      DEFAULT_CANON_VERSION 7 ((("x").data, ("y").data, ("z").data))
      ((("z").data, ("y").data, ("x").data))
      ((random_triplets_perm_invariant.2.1 (fun s => s)
        (("x").data) (("y").data) (("z").data)).2.2.2.2.symm)).2

end Sentinel

namespace Sentinel

/-- Summing a map that sends zero entries to `0` equals summing over the
positive entries only. -/
theorem sum_map_ite_zero (l : List Nat) (g : Nat → ℝ) :
    (l.map (fun c => if c = 0 then (0 : ℝ) else g c)).sum =
      ((l.filter (fun c => 0 < c)).map g).sum := by
  induction l with
  | nil => simp
  | cons c t ih =>
      by_cases h : c = 0
      · subst h
        simp [ih]
      · have hc : 0 < c := Nat.pos_of_ne_zero h
        simp [List.filter_cons, h, hc, ih]

theorem sum_map_neg (l : List Nat) (g : Nat → ℝ) :
    ((l.map (fun c => -(g c))).sum) = -((l.map g).sum) := by
  induction l with
  | nil => simp
  | cons c t ih =>
      simp [ih]
      ring

/-- C2: `shannon_entropy(counts)` equals the sum of `-(c/T) * ln(c/T)`
over the entries `c > 0` (zero entries contribute `0`), equals `0` when
the total `T` is `0`, equals `0` whenever all mass sits in a single
bucket, and equals `ln N` on a perfectly uniform vector of `N` equal
positive counts (exact equalities in the real-valued model, hence
within any positive floating tolerance). -/
theorem shannon_entropy_spec :
    (∀ counts : List Nat, counts.sum = 0 → shannon_entropy counts = 0) ∧
    (∀ counts : List Nat,
        shannon_entropy counts =
          ((counts.filter (fun c => 0 < c)).map (fun c : Nat =>
            -(((c : ℝ) / (counts.sum : ℝ)) *
              Real.log ((c : ℝ) / (counts.sum : ℝ))))).sum) ∧
    (∀ counts : List Nat, (∀ c ∈ counts, c = 0 ∨ c = counts.sum) →
        shannon_entropy counts = 0) ∧
    (∀ N k : Nat, 0 < N → 0 < k →
        shannon_entropy (List.replicate N k) = Real.log N) := by
  refine ⟨?_, ?_, ?_, ?_⟩
  · intro counts h
    simp [shannon_entropy, h]
  · intro counts
    unfold shannon_entropy
    by_cases h : counts.sum = 0
    · rw [if_pos h]
      have hz : counts.filter (fun c => 0 < c) = [] := by
        rw [List.filter_eq_nil_iff]
        intro c hc
        have := (List.sum_eq_zero_iff.mp h) c hc
        simp [this]
      rw [hz]
      simp
    · rw [if_neg h]
      rw [sum_map_ite_zero counts
        (fun c => ((c : ℝ) / (counts.sum : ℝ)) * Real.log ((c : ℝ) / (counts.sum : ℝ)))]
      rw [sum_map_neg]
  · intro counts h
    unfold shannon_entropy
    by_cases h0 : counts.sum = 0
    · simp [h0]
    · rw [if_neg h0]
      have hall : ∀ x ∈ counts.map (fun count : Nat =>
          if count = 0 then (0 : ℝ)
          else ((count : ℝ) / (counts.sum : ℝ)) *
            Real.log ((count : ℝ) / (counts.sum : ℝ))), x = 0 := by
        intro x hx
        obtain ⟨c, hc, rfl⟩ := List.mem_map.mp hx
        rcases h c hc with rfl | rfl
        · simp
        · have hT : ((counts.sum : ℝ)) ≠ 0 := Nat.cast_ne_zero.mpr h0
          rw [if_neg h0, div_self hT, Real.log_one, mul_zero]
      rw [List.sum_eq_zero hall]
      simp
  · intro N k hN hk
    have hsum : (List.replicate N k).sum = N * k := by
      simp [List.sum_replicate, smul_eq_mul]
    have hk' : (k : ℝ) ≠ 0 := Nat.cast_ne_zero.mpr hk.ne'
    have hNk : N * k ≠ 0 := Nat.mul_ne_zero hN.ne' hk.ne'
    unfold shannon_entropy
    rw [hsum, if_neg hNk, List.map_replicate, if_neg hk.ne']
    have hdiv : (k : ℝ) / ((N * k : ℕ) : ℝ) = 1 / N := by
      push_cast
      rw [mul_comm, ← div_div, div_self hk']
    rw [hdiv, List.sum_replicate, nsmul_eq_mul, one_div, Real.log_inv]
    field_simp

theorem shannon_entropy_spec_witness :
    shannon_entropy [0, 0] = 0 ∧ shannon_entropy [5, 0] = 0 ∧
    shannon_entropy (List.replicate 2 3) = Real.log 2 :=
  ⟨shannon_entropy_spec.1 [0, 0] (by decide),
   shannon_entropy_spec.2.2.1 [5, 0] (by decide),
   shannon_entropy_spec.2.2.2 2 3 (by decide) (by decide)⟩

end Sentinel

namespace Sentinel

theorem enumFrom_replicate (k : Nat) :
    ∀ (n s : Nat), List.enumFrom s (List.replicate n k) =
      (List.range n).map (fun j => (s + j, k)) := by
  intro n
  induction n with
  | zero => simp
  | succ m ih =>
      intro s
      rw [List.replicate_succ, List.enumFrom_cons, ih (s + 1),
        List.range_succ_eq_map, List.map_cons, List.map_map]
      refine congrArg₂ _ (by simp) ?_
      apply List.map_congr_left
      intro j _
      simp [Function.comp]
      omega

theorem list_range_map_sum (n : Nat) (f : Nat → ℤ) :
    ((List.range n).map f).sum = ∑ j ∈ Finset.range n, f j := by
  induction n with
  | zero => simp
  | succ m ih =>
      rw [List.range_succ, Finset.sum_range_succ, List.map_append, List.sum_append, ih]
      simp

/-- The Gini numerator coefficients `2i - n + 1` sum to zero over
`i = 0, …, n-1`. -/
theorem sum_gini_kernel (n : Nat) (hn : 1 ≤ n) :
    ∑ j ∈ Finset.range n, (2 * (j : ℤ) - (n : ℤ) + 1) = 0 := by
  have h2 : ((∑ i ∈ Finset.range n, i) * 2 : ℕ) = n * (n - 1) :=
    Finset.sum_range_id_mul_two n
  have h2' : (∑ i ∈ Finset.range n, (i : ℤ)) * 2 = (n : ℤ) * ((n : ℤ) - 1) := by
    have := congrArg (Nat.cast (R := ℤ)) h2
    push_cast [Nat.cast_sub hn] at this
    exact this
  have hsplit : ∑ j ∈ Finset.range n, (2 * (j : ℤ) - (n : ℤ) + 1) =
      (∑ j ∈ Finset.range n, 2 * (j : ℤ)) - ∑ _j ∈ Finset.range n, ((n : ℤ) - 1) := by
    rw [← Finset.sum_sub_distrib]
    apply Finset.sum_congr rfl
    intro j _
    ring
  rw [hsplit, Finset.sum_const, Finset.card_range, ← Finset.mul_sum, nsmul_eq_mul]
  linarith [h2']

theorem insertionSort_replicate (n k : Nat) :
    (List.replicate n k).insertionSort (· ≤ ·) = List.replicate n k :=
  List.eq_of_perm_of_sorted (List.perm_insertionSort _ _)
    (List.sorted_insertionSort _ _) (List.pairwise_replicate.mpr (Or.inr le_rfl))

/-- C3: `gini_coefficient(counts)` returns `0` for vectors with fewer
than 2 entries or zero total, returns exactly `0` on every perfectly
uniform vector of at least 2 equal positive counts, and otherwise
equals the closed form `Σ_i (2i - n + 1)·x_i / (n·Σx_i)` computed over
the `n` counts sorted ascending (stated over any ascending-sorted
permutation `l` of the input). -/
theorem gini_coefficient_spec :
    (∀ counts : List Nat, counts.length < 2 → gini_coefficient counts = 0) ∧
    (∀ counts : List Nat, counts.sum = 0 → gini_coefficient counts = 0) ∧
    (∀ n k : Nat, 2 ≤ n → 0 < k → gini_coefficient (List.replicate n k) = 0) ∧
    (∀ counts l : List Nat, 2 ≤ counts.length → counts.sum ≠ 0 →
        l.Perm counts → l.Sorted (· ≤ ·) →
        gini_coefficient counts =
          ((((l.enum).map (fun p => (2 * (p.1 : ℤ) - (counts.length : ℤ) + 1) *
              (p.2 : ℤ))).sum : ℚ)) /
            ((counts.length : ℚ) * (counts.sum : ℚ))) := by
  refine ⟨?_, ?_, ?_, ?_⟩
  · intro counts h
    simp [gini_coefficient, h]
  · intro counts h
    unfold gini_coefficient
    dsimp only
    by_cases h2 : counts.length < 2
    · rw [if_pos h2]
    · rw [if_neg h2, h]
      simp
  · intro n k hn hk
    have hlen : (List.replicate n k).length = n := List.length_replicate n k
    have hsum : (List.replicate n k).sum = n * k := by
      simp [List.sum_replicate, smul_eq_mul]
    have hNk : n * k ≠ 0 := Nat.mul_ne_zero (by omega) hk.ne'
    unfold gini_coefficient
    dsimp only
    rw [hlen, hsum, if_neg (by omega), if_neg hNk, insertionSort_replicate]
    have henum : (List.replicate n k).enum = (List.range n).map (fun j => (j, k)) := by
      have := enumFrom_replicate k n 0
      rw [List.enum, this]
      apply List.map_congr_left
      intro j _
      simp
    rw [henum, List.map_map]
    have hcomp : ((List.range n).map ((fun p : Nat × Nat =>
        (2 * (p.1 : ℤ) - (n : ℤ) + 1) * (p.2 : ℤ)) ∘ (fun j => (j, k)))).sum =
        ((List.range n).map (fun j : Nat => (2 * (j : ℤ) - (n : ℤ) + 1) * (k : ℤ))).sum := rfl
    rw [hcomp, list_range_map_sum, ← Finset.sum_mul, sum_gini_kernel n (by omega)]
    simp
  · intro counts l hn ht hperm hsort
    have hs : counts.insertionSort (· ≤ ·) = l :=
      List.eq_of_perm_of_sorted ((List.perm_insertionSort _ _).trans hperm.symm)
        (List.sorted_insertionSort _ _) hsort
    unfold gini_coefficient
    dsimp only
    rw [if_neg (by omega), if_neg ht, hs]

theorem gini_coefficient_spec_witness :
    gini_coefficient [7] = 0 ∧ gini_coefficient [0, 0, 0] = 0 ∧
    gini_coefficient (List.replicate 2 3) = 0 ∧
    gini_coefficient [2, 1] =
      (((([1, 2].enum).map (fun p => (2 * (p.1 : ℤ) - ((2 : ℕ) : ℤ) + 1) *
          (p.2 : ℤ))).sum : ℚ)) / (((2 : ℕ) : ℚ) * (((3 : ℕ)) : ℚ)) :=
  ⟨gini_coefficient_spec.1 [7] (by decide),
   gini_coefficient_spec.2.1 [0, 0, 0] (by decide),
   gini_coefficient_spec.2.2.1 2 3 (by decide) (by decide),
   gini_coefficient_spec.2.2.2 [2, 1] [1, 2] (by decide) (by decide)
     (by decide) (by decide)⟩

end Sentinel

namespace Sentinel

/-- C6: `ranked_bins(counts, k)` returns `(bucket_index, count)` pairs
ordered by descending count with ties broken by ascending bucket index
(the order `rankRel`), truncated to the first `k` entries (the Python
default is `k = 10`); the result is the `k`-prefix of the unique
`rankRel`-sorted permutation of `enumerate(counts)`, so equal inputs
give the identical ranked list. -/
theorem ranked_bins_spec :
    (∀ (counts : List Nat) (k : Nat), (ranked_bins counts k).Sorted rankRel) ∧
    (∀ (counts : List Nat) (k : Nat) (l : List (Nat × Nat)),
        l.Perm counts.enum → l.Sorted rankRel → ranked_bins counts k = l.take k) ∧
    (∀ (counts : List Nat) (k : Nat),
        (ranked_bins counts k).length = min k counts.length) ∧
    (∀ (counts : List Nat) (k : Nat) (p : Nat × Nat),
        p ∈ ranked_bins counts k → p ∈ counts.enum) := by
  refine ⟨?_, ?_, ?_, ?_⟩
  · intro counts k
    exact (List.sorted_insertionSort rankRel counts.enum).sublist (List.take_sublist _ _)
  · intro counts k l hperm hsort
    unfold ranked_bins
    rw [List.eq_of_perm_of_sorted
      ((List.perm_insertionSort rankRel counts.enum).trans hperm.symm)
      (List.sorted_insertionSort rankRel counts.enum) hsort]
  · intro counts k
    unfold ranked_bins
    rw [List.length_take, List.length_insertionSort, List.enum_length]
  · intro counts k p hp
    have h1 : p ∈ (counts.enum).insertionSort rankRel := List.take_subset _ _ hp
    exact (List.perm_insertionSort rankRel counts.enum).subset h1

theorem ranked_bins_spec_witness :
    ranked_bins [1, 2, 2] 2 = [(1, 2), (2, 2), (0, 1)].take 2 :=
  ranked_bins_spec.2.1 [1, 2, 2] 2 [(1, 2), (2, 2), (0, 1)] (by decide) (by decide)

end Sentinel

namespace Sentinel

/-- Membership in `combinations2` is exactly being a 2-element sublist
(in input order). -/
theorem mem_combinations2 {α : Type} (l : List α) (p : α × α) :
    p ∈ combinations2 l ↔ [p.1, p.2].Sublist l := by
  obtain ⟨p1, p2⟩ := p
  induction l with
  | nil => simp [combinations2]
  | cons x xs ih =>
      simp only [combinations2, List.mem_append, List.mem_map]
      constructor
      · rintro (⟨y, hy, he⟩ | h)
        · injection he with h1 h2
          subst h1
          subst h2
          exact List.Sublist.cons₂ _ (List.singleton_sublist.mpr hy)
        · exact (ih.mp h).cons x
      · intro h
        cases h with
        | cons _ h' => exact Or.inr (ih.mpr h')
        | cons₂ _ h' => exact Or.inl ⟨p2, List.singleton_sublist.mp h', rfl⟩

/-- Membership in `combinations3` is exactly being a 3-element sublist
(in input order), matching `itertools.combinations`. -/
theorem mem_combinations3 {α : Type} (l : List α) (t : α × α × α) :
    t ∈ combinations3 l ↔ [t.1, t.2.1, t.2.2].Sublist l := by
  obtain ⟨t1, t2, t3⟩ := t
  induction l with
  | nil => simp [combinations3]
  | cons x xs ih =>
      simp only [combinations3, List.mem_append, List.mem_map]
      constructor
      · rintro (⟨p, hp, he⟩ | h)
        · obtain ⟨q1, q2⟩ := p
          cases he
          exact List.Sublist.cons₂ _ ((mem_combinations2 xs (q1, q2)).mp hp)
        · exact (ih.mp h).cons x
      · intro h
        cases h with
        | cons _ h' => exact Or.inr (ih.mpr h')
        | cons₂ _ h' => exact Or.inl ⟨(t2, t3), (mem_combinations2 xs (t2, t3)).mpr h', rfl⟩

theorem length_combinations2 {α : Type} (l : List α) :
    (combinations2 l).length = l.length.choose 2 := by
  induction l with
  | nil => simp [combinations2]
  | cons x xs ih =>
      simp only [combinations2, List.length_append, List.length_map, ih, List.length_cons]
      rw [Nat.choose_succ_succ, Nat.choose_one_right]

theorem length_combinations3 {α : Type} (l : List α) :
    (combinations3 l).length = l.length.choose 3 := by
  induction l with
  | nil => simp [combinations3]
  | cons x xs ih =>
      simp only [combinations3, List.length_append, List.length_map, ih, List.length_cons,
        length_combinations2]
      rw [Nat.choose_succ_succ]

theorem nodup_combinations2 {α : Type} (l : List α) (h : l.Nodup) :
    (combinations2 l).Nodup := by
  induction l with
  | nil => simp [combinations2]
  | cons x xs ih =>
      obtain ⟨hx, hxs⟩ := List.nodup_cons.mp h
      refine List.Nodup.append ?_ (ih hxs) ?_
      · exact hxs.map (fun a b e => congrArg Prod.snd e)
      · intro p hp1 hp2
        obtain ⟨y, hy, he⟩ := List.mem_map.mp hp1
        have h1 : p.1 = x := by
          rw [← he]
        have h2 : p.1 ∈ xs :=
          ((mem_combinations2 xs p).mp hp2).subset (List.mem_cons_self _ _)
        exact hx (h1 ▸ h2)

theorem nodup_combinations3 {α : Type} (l : List α) (h : l.Nodup) :
    (combinations3 l).Nodup := by
  induction l with
  | nil => simp [combinations3]
  | cons x xs ih =>
      obtain ⟨hx, hxs⟩ := List.nodup_cons.mp h
      refine List.Nodup.append ?_ (ih hxs) ?_
      · refine (nodup_combinations2 xs hxs).map ?_
        intro a b e
        obtain ⟨a1, a2⟩ := a
        obtain ⟨b1, b2⟩ := b
        injection e with e1 erest
      · intro t ht1 ht2
        obtain ⟨p, hp, he⟩ := List.mem_map.mp ht1
        have h1 : t.1 = x := by
          rw [← he]
        have h2 : t.1 ∈ xs :=
          ((mem_combinations3 xs t).mp ht2).subset (List.mem_cons_self _ _)
        exact hx (h1 ▸ h2)

/-- The unit counter of the aggregation fold counts the processed
payloads. -/
theorem foldl_step_n_units (nfkc : Str → Str) (ds : Str) (n_bins limit : Nat)
    (payloads : List Str) : ∀ init : AggSt,
    (payloads.foldl (compute_step nfkc ds n_bins limit) init).n_units =
      init.n_units + payloads.length := by
  induction payloads with
  | nil => simp
  | cons p t ih =>
      intro init
      rw [List.foldl_cons, ih]
      simp [compute_step]
      omega

/-- The `N` field of a run record is the number of payloads consumed. -/
theorem compute_run_N (nfkc : Str → Str) (ds mode : Str) (payloads : List Str)
    (n_bins : Nat) (include_counts : Bool) (seed : Option Int) (limit : Nat)
    (now : Str) :
    (compute_run nfkc ds mode payloads n_bins include_counts seed limit now).N =
      payloads.length := by
  unfold compute_run
  dsimp only
  rw [foldl_step_n_units]
  simp

/-- C7: `generate_exhaustive_triplets` renders one `'-'`-joined payload
per element of `combinations(alphabet, 3)` (symbols kept in the
alphabet's original order, no sorting); the combinations are exactly the
3-element sublists of the alphabet, there are `C(k, 3)` of them, and for
a duplicate-free alphabet no combination repeats.  End to end, the
4-symbol alphabet `["a","b","c","d"]` yields exactly 4 payloads and a
run record whose `N` field equals 4. -/
theorem generate_exhaustive_triplets_spec :
    (∀ alphabet : List Str,
        generate_exhaustive_triplets alphabet =
          (combinations3 alphabet).map (fun t => joinTriplet t.1 t.2.1 t.2.2)) ∧
    (∀ alphabet : List Str,
        (generate_exhaustive_triplets alphabet).length = alphabet.length.choose 3) ∧
    (∀ (alphabet : List Str) (t : Str × Str × Str),
        t ∈ combinations3 alphabet ↔ [t.1, t.2.1, t.2.2].Sublist alphabet) ∧
    (∀ alphabet : List Str, alphabet.Nodup → (combinations3 alphabet).Nodup) ∧
    (generate_exhaustive_triplets
      [("a").data, ("b").data, ("c").data, ("d").data]).length = 4 ∧
    (∀ (nfkc : Str → Str) (ds : Str) (n_bins : Nat) (include_counts : Bool)
        (seed : Option Int) (limit : Nat) (now : Str),
        (compute_run nfkc ds (("exhaustive").data)
          (generate_exhaustive_triplets
            [("a").data, ("b").data, ("c").data, ("d").data])
          n_bins include_counts seed limit now).N = 4) := by
  refine ⟨fun _ => rfl, ?_, mem_combinations3, nodup_combinations3, rfl, ?_⟩
  · intro alphabet
    unfold generate_exhaustive_triplets
    rw [List.length_map, length_combinations3]
  · intro nfkc ds n_bins include_counts seed limit now
    rw [compute_run_N]
    rfl

theorem generate_exhaustive_triplets_spec_witness :
    ([("a").data, ("b").data, ("c").data, ("d").data] : List Str).Nodup ∧
    (combinations3 [("a").data, ("b").data, ("c").data, ("d").data]).Nodup :=
  ⟨by decide,
   generate_exhaustive_triplets_spec.2.2.2.1
     [("a").data, ("b").data, ("c").data, ("d").data] (by decide)⟩

end Sentinel

namespace Sentinel

theorem shannon_entropy_replicate_zero (n : Nat) :
    shannon_entropy (List.replicate n 0) = 0 := by
  unfold shannon_entropy
  have h : (List.replicate n (0 : Nat)).sum = 0 := by simp
  simp [h]

theorem gini_replicate_zero (n : Nat) :
    gini_coefficient (List.replicate n 0) = 0 := by
  unfold gini_coefficient
  dsimp only
  by_cases h : (List.replicate n (0 : Nat)).length < 2
  · rw [if_pos h]
  · rw [if_neg h]
    have hs : (List.replicate n (0 : Nat)).sum = 0 := by simp
    simp [hs]

theorem foldr_max_replicate_zero (n : Nat) :
    (List.replicate n (0 : Nat)).foldr max 0 = 0 := by
  induction n with
  | zero => rfl
  | succ m ih =>
      rw [List.replicate_succ, List.foldr_cons, ih]
      rfl

/-- C8: for every `n_bins > 0`, `compute_run` on an empty payload
sequence yields a record with `N = 0`, all `n_bins` buckets empty,
entropy `0.0`, Gini `0.0`, and maximum load `0`. -/
theorem compute_run_empty_spec (nfkc : Str → Str) (ds mode : Str) (n_bins : Nat)
    (hn : 0 < n_bins) (include_counts : Bool) (seed : Option Int) (limit : Nat)
    (now : Str) :
    (compute_run nfkc ds mode [] n_bins include_counts seed limit now).N = 0 ∧
    (compute_run nfkc ds mode [] n_bins include_counts seed limit now).empty_bins = n_bins ∧
    (compute_run nfkc ds mode [] n_bins include_counts seed limit now).entropy = 0 ∧
    (compute_run nfkc ds mode [] n_bins include_counts seed limit now).gini = 0 ∧
    (compute_run nfkc ds mode [] n_bins include_counts seed limit now).max_load = 0 := by
  unfold compute_run
  dsimp only [List.foldl_nil]
  refine ⟨rfl, ?_, ?_, ?_, ?_⟩
  · exact List.count_replicate_self 0 n_bins
  · exact shannon_entropy_replicate_zero n_bins
  · exact gini_replicate_zero n_bins
  · exact foldr_max_replicate_zero n_bins

theorem compute_run_empty_spec_witness :
    0 < 384 ∧
    (compute_run (fun s => s) (("d").data) (("random").data) [] 384 false none 25
      (("t").data)).N = 0 ∧
    (compute_run (fun s => s) (("d").data) (("random").data) [] 384 false none 25
      (("t").data)).empty_bins = 384 :=
  ⟨by decide,
   (compute_run_empty_spec (fun s => s) (("d").data) (("random").data) 384
     (by decide) false none 25 (("t").data)).1,
   (compute_run_empty_spec (fun s => s) (("d").data) (("random").data) 384
     (by decide) false none 25 (("t").data)).2.1⟩

end Sentinel

namespace Sentinel

theorem getD_replicate_zero (n b : Nat) :
    (List.replicate n (0 : Nat)).getD b 0 = 0 := by
  rw [List.getD_eq_getElem?_getD, List.getElem?_replicate]
  by_cases h : b < n <;> simp [h]

theorem agg_fold_spec (nfkc : Str → Str) (ds : Str) (n_bins limit : Nat)
    (hn : 0 < n_bins) :
    ∀ payloads : List Str,
      ((payloads.foldl (compute_step nfkc ds n_bins limit)
          ⟨List.replicate n_bins 0, fun _ => [], 0⟩).counts.length = n_bins) ∧
      (∀ b, (payloads.foldl (compute_step nfkc ds n_bins limit)
          ⟨List.replicate n_bins 0, fun _ => [], 0⟩).members b =
        (((routedPairs nfkc ds n_bins payloads).filter
            (fun r => r.2 = b)).map Prod.fst).take limit) ∧
      (∀ b, b < n_bins → (payloads.foldl (compute_step nfkc ds n_bins limit)
          ⟨List.replicate n_bins 0, fun _ => [], 0⟩).counts.getD b 0 =
        ((routedPairs nfkc ds n_bins payloads).filter (fun r => r.2 = b)).length) := by
  intro payloads
  induction payloads using List.reverseRecOn with
  | nil =>
      refine ⟨List.length_replicate _ _, ?_, ?_⟩
      · intro b
        simp [routedPairs]
      · intro b hb
        simp [routedPairs, getD_replicate_zero]
  | append_singleton l p ih =>
      obtain ⟨ihlen, ihmem, ihcnt⟩ := ih
      rw [List.foldl_append, List.foldl_cons, List.foldl_nil]
      set st := l.foldl (compute_step nfkc ds n_bins limit)
        (⟨List.replicate n_bins 0, fun _ => [], 0⟩ : AggSt) with hst
      set rp := route_bin (canonical_string nfkc ds DEFAULT_SCRIPT DEFAULT_UNIT_TYPE
        p DEFAULT_CANON_VERSION) n_bins with hrp
      have hroutes : routedPairs nfkc ds n_bins (l ++ [p]) =
          routedPairs nfkc ds n_bins l ++ [rp] := by
        simp [routedPairs]
      have hbin : rp.2 < n_bins := Nat.mod_lt _ hn
      refine ⟨?_, ?_, ?_⟩
      · rw [show (compute_step nfkc ds n_bins limit st p).counts =
          st.counts.set rp.2 (st.counts.getD rp.2 0 + 1) from rfl]
        rw [List.length_set, ihlen]
      · intro b
        rw [hroutes, List.filter_append, List.map_append]
        rw [show (compute_step nfkc ds n_bins limit st p).members b =
          (if b = rp.2 then
            (if (st.members rp.2).length < limit then st.members rp.2 ++ [rp.1]
             else st.members rp.2)
          else st.members b) from rfl]
        by_cases hb : b = rp.2
        · rw [hb, if_pos rfl]
          have hfilter : List.filter (fun r => decide (r.2 = rp.2)) [rp] = [rp] := by
            simp
          rw [hfilter]
          set ids := ((routedPairs nfkc ds n_bins l).filter
            (fun r => r.2 = rp.2)).map Prod.fst with hids
          have hmems : st.members rp.2 = ids.take limit := ihmem rp.2
          rw [hmems, List.length_take]
          by_cases hlen : ids.length < limit
          · rw [if_pos (by omega), List.take_of_length_le (le_of_lt hlen)]
            have htk : (ids ++ List.map Prod.fst [rp]).take limit =
                ids ++ List.map Prod.fst [rp] := by
              refine List.take_of_length_le ?_
              simp
              omega
            rw [htk]
            simp
          · rw [if_neg (by omega)]
            rw [List.take_append_of_le_length (by omega)]
        · rw [if_neg hb]
          have hfilter : List.filter (fun r => decide (r.2 = b)) [rp] = [] := by
            simp
            omega
          rw [hfilter]
          simp [ihmem b]
      · intro b hb
        rw [hroutes, List.filter_append]
        rw [show (compute_step nfkc ds n_bins limit st p).counts =
          st.counts.set rp.2 (st.counts.getD rp.2 0 + 1) from rfl]
        by_cases hbeq : b = rp.2
        · rw [hbeq] at hb ⊢
          have hfilter : List.filter (fun r => decide (r.2 = rp.2)) [rp] = [rp] := by
            simp
          rw [hfilter, List.length_append]
          rw [List.getD_eq_getElem?_getD, List.getElem?_set_self (ihlen ▸ hb)]
          simp only [Option.getD_some, List.length_singleton]
          rw [ihcnt rp.2 hb]
        · rw [List.getD_eq_getElem?_getD, List.getElem?_set_ne (fun h => hbeq h.symm),
            ← List.getD_eq_getElem?_getD, ihcnt b hb]
          have hfilter : List.filter (fun r => decide (r.2 = b)) [rp] = [] := by
            simp
            omega
          rw [hfilter]
          simp

end Sentinel

namespace Sentinel

/-- C9: in every record produced by `compute_run` (with a positive bin
count), each `top_bins` entry's `member_ids` list consists exactly of
the routed identifiers of the earliest units routed to that bucket, in
stream arrival order, truncated to the per-bucket cap
`top_member_limit`; its length is the minimum of the bucket's final
count and the cap. -/
theorem compute_run_top_bins_members (nfkc : Str → Str) (ds mode : Str)
    (payloads : List Str) (n_bins : Nat) (hn : 0 < n_bins) (include_counts : Bool)
    (seed : Option Int) (limit : Nat) (now : Str) :
    ∀ e ∈ (compute_run nfkc ds mode payloads n_bins include_counts seed limit now).top_bins,
      e.member_ids =
        (((routedPairs nfkc ds n_bins payloads).filter
            (fun r => r.2 = e.bin)).map Prod.fst).take limit ∧
      e.member_ids.length = min e.count limit := by
  obtain ⟨hlen, hmem, hcnt⟩ := agg_fold_spec nfkc ds n_bins limit hn payloads
  intro e he
  set st := payloads.foldl (compute_step nfkc ds n_bins limit)
    (⟨List.replicate n_bins 0, fun _ => [], 0⟩ : AggSt) with hst
  have he' : e ∈ (ranked_bins st.counts 10).map
      (fun p => ({ bin := p.1, count := p.2, member_ids := st.members p.1 } : TopBin)) := he
  obtain ⟨p, hp, rfl⟩ := List.mem_map.mp he'
  refine ⟨hmem p.1, ?_⟩
  have hp' : p ∈ ((st.counts.enum).insertionSort rankRel).take 10 := hp
  have hpe : p ∈ st.counts.enum :=
    (List.perm_insertionSort rankRel st.counts.enum).subset (List.take_subset _ _ hp')
  have hget : st.counts[p.1]? = some p.2 := List.mem_enum_iff_getElem?.mp hpe
  have hplt : p.1 < st.counts.length := by
    by_contra hcon
    rw [List.getElem?_eq_none (by omega)] at hget
    exact Option.noConfusion hget
  have hgd : st.counts.getD p.1 0 = p.2 := by
    rw [List.getD_eq_getElem?_getD, hget]
    rfl
  have hcount : ((routedPairs nfkc ds n_bins payloads).filter
      (fun r => r.2 = p.1)).length = p.2 := by
    rw [← hcnt p.1 (hlen ▸ hplt)]
    exact hgd
  show (st.members p.1).length = min p.2 limit
  rw [hmem p.1, List.length_take, List.length_map, hcount]
  exact Nat.min_comm _ _

theorem compute_run_top_bins_members_witness :
    0 < 2 ∧
    (({ bin := 0, count := 0, member_ids := [] } : TopBin) ∈
      (compute_run (fun s => s) (("d").data) (("m").data) [] 2 false none 25
        (("t").data)).top_bins) ∧
    ({ bin := 0, count := 0, member_ids := [] } : TopBin).member_ids =
      (((routedPairs (fun s => s) (("d").data) 2 []).filter
          (fun r => r.2 = ({ bin := 0, count := 0, member_ids := [] } : TopBin).bin)).map
        Prod.fst).take 25 ∧
    ({ bin := 0, count := 0, member_ids := [] } : TopBin).member_ids.length =
      min ({ bin := 0, count := 0, member_ids := [] } : TopBin).count 25 := by
  have hmem : ({ bin := 0, count := 0, member_ids := [] } : TopBin) ∈
      (compute_run (fun s => s) (("d").data) (("m").data) [] 2 false none 25
        (("t").data)).top_bins := by
    show ({ bin := 0, count := 0, member_ids := [] } : TopBin) ∈
      (ranked_bins (List.replicate 2 0) 10).map
        (fun p => ({ bin := p.1, count := p.2, member_ids := [] } : TopBin))
    refine List.mem_map.mpr ⟨(0, 0), ?_, rfl⟩
    decide
  have h := compute_run_top_bins_members (fun s => s) (("d").data) (("m").data)
    [] 2 (by decide) false none 25 (("t").data) _ hmem
  exact ⟨by decide, hmem, h.1, h.2⟩

end Sentinel

namespace Sentinel

theorem pyLStrip_cons_of_not_space (c : Char) (t : Str) (h : isPySpace c = false) :
    pyLStrip (c :: t) = c :: t := by
  unfold pyLStrip
  rw [List.dropWhile_cons]
  simp [h]

theorem pyRStrip_ne_nil (q : Str) (c : Char) (hc : c ∈ q) (h : isPySpace c = false) :
    pyRStrip q ≠ [] := by
  unfold pyRStrip
  intro hcon
  have hnil : q.reverse.dropWhile isPySpace = [] := List.reverse_eq_nil_iff.mp hcon
  have hall := List.dropWhile_eq_nil_iff.mp hnil
  have hws : isPySpace c = true := hall c (List.mem_reverse.mpr hc)
  rw [h] at hws
  exact Bool.noConfusion hws

theorem pyRStrip_append (u q : Str) (h : pyRStrip q ≠ []) :
    pyRStrip (u ++ q) = u ++ pyRStrip q := by
  unfold pyRStrip at h ⊢
  rw [List.reverse_append, List.dropWhile_append]
  have hd : q.reverse.dropWhile isPySpace ≠ [] := by
    intro hx
    apply h
    rw [hx]
    rfl
  have hne : (q.reverse.dropWhile isPySpace).isEmpty = false := by
    rw [Bool.eq_false_iff]
    intro hemp
    exact hd (List.isEmpty_iff.mp hemp)
  rw [hne]
  simp

theorem pyStrip_structured (c : Char) (p mid q : Str) (hp : isPySpace c = false)
    (hq : pyRStrip q ≠ []) :
    pyStrip ((c :: p) ++ mid ++ q) = (c :: p) ++ mid ++ pyRStrip q := by
  unfold pyStrip
  rw [show (c :: p) ++ mid ++ q = (c :: (p ++ mid)) ++ q by simp, pyRStrip_append _ _ hq,
    show (c :: (p ++ mid)) ++ pyRStrip q = c :: (p ++ mid ++ pyRStrip q) by simp,
    pyLStrip_cons_of_not_space _ _ hp]
  simp

theorem nfkc_congr_mid (nfkc : Str → Str)
    (hcongr : ∀ a b : Str, nfkc (a ++ b) = nfkc (nfkc a ++ nfkc b))
    (p q x y : Str) (hxy : nfkc x = nfkc y) :
    nfkc (p ++ x ++ q) = nfkc (p ++ y ++ q) := by
  have h1 : nfkc (x ++ q) = nfkc (y ++ q) := by
    rw [hcongr x q, hxy, ← hcongr y q]
  calc nfkc (p ++ x ++ q) = nfkc (p ++ (x ++ q)) := by rw [List.append_assoc]
    _ = nfkc (nfkc p ++ nfkc (x ++ q)) := hcongr _ _
    _ = nfkc (nfkc p ++ nfkc (y ++ q)) := by rw [h1]
    _ = nfkc (p ++ (y ++ q)) := (hcongr _ _).symm
    _ = nfkc (p ++ y ++ q) := by rw [← List.append_assoc]

end Sentinel

namespace MSQ

open Sentinel

/-- C10: `msq_state.canonical_string` applies whitespace-strip and the
NFKC map to the entire assembled tagged string after joining the
fields; consequently — assuming the standard concatenation-congruence
property of NFKC normalization — two valid states that agree on `size`,
`target_sum`, `tiles` and `locks` and whose `ruleset_id` fields are
NFKC-equivalent produce the identical canonical string (at every
version) and the identical `(identifier, bucket)` pair from
`state_id_and_bin`. -/
theorem msq_canonical_nfkc_congruence (nfkc : Str → Str)
    (hcongr : ∀ a b : Str, nfkc (a ++ b) = nfkc (nfkc a ++ nfkc b))
    (s1 s2 : MSQState) (hv1 : s1.Valid) (hv2 : s2.Valid)
    (hsize : s1.size = s2.size) (ht : s1.target_sum = s2.target_sum)
    (htiles : s1.tiles = s2.tiles) (hlocks : s1.locks = s2.locks)
    (hrule : nfkc s1.ruleset_id = nfkc s2.ruleset_id) (n_bins : Nat) :
    (∀ (st : MSQState) (v : Str),
        canonical_string nfkc st v = nfkc (pyStrip (assembled st v))) ∧
    (∀ version : Str,
        canonical_string nfkc s1 version = canonical_string nfkc s2 version) ∧
    state_id_and_bin nfkc s1 n_bins = state_id_and_bin nfkc s2 n_bins := by
  have hmain : ∀ version : Str,
      canonical_string nfkc s1 version = canonical_string nfkc s2 version := by
    intro version
    have hq2 : ("|G=").data ++ tileGrid s2.tiles ++ ("|L=").data ++ lockBits s2.locks =
        ("|G=").data ++ tileGrid s1.tiles ++ ("|L=").data ++ lockBits s1.locks := by
      rw [htiles, hlocks]
    have hP2 : ("SQ|").data ++ version ++ ("|N=").data ++ (toString s2.size).data ++
        ("|T=").data ++ (toString s2.target_sum).data ++ ("|R=").data =
        ("SQ|").data ++ version ++ ("|N=").data ++ (toString s1.size).data ++
        ("|T=").data ++ (toString s1.target_sum).data ++ ("|R=").data := by
      rw [hsize, ht]
    have ha1 : assembled s1 version =
        ('M' :: (("SQ|").data ++ version ++ ("|N=").data ++ (toString s1.size).data ++
          ("|T=").data ++ (toString s1.target_sum).data ++ ("|R=").data)) ++
        s1.ruleset_id ++
        (("|G=").data ++ tileGrid s1.tiles ++ ("|L=").data ++ lockBits s1.locks) := by
      simp [assembled, List.append_assoc]
    have ha2 : assembled s2 version =
        ('M' :: (("SQ|").data ++ version ++ ("|N=").data ++ (toString s1.size).data ++
          ("|T=").data ++ (toString s1.target_sum).data ++ ("|R=").data)) ++
        s2.ruleset_id ++
        (("|G=").data ++ tileGrid s1.tiles ++ ("|L=").data ++ lockBits s1.locks) := by
      rw [show assembled s2 version =
        ('M' :: (("SQ|").data ++ version ++ ("|N=").data ++ (toString s2.size).data ++
          ("|T=").data ++ (toString s2.target_sum).data ++ ("|R=").data)) ++
        s2.ruleset_id ++
        (("|G=").data ++ tileGrid s2.tiles ++ ("|L=").data ++ lockBits s2.locks) from by
          simp [assembled, List.append_assoc]]
      rw [hq2, hP2]
    have hqne : pyRStrip (("|G=").data ++ tileGrid s1.tiles ++ ("|L=").data ++
        lockBits s1.locks) ≠ [] := by
      refine pyRStrip_ne_nil _ '|' ?_ (by decide)
      simp
    show nfkc (pyStrip (assembled s1 version)) = nfkc (pyStrip (assembled s2 version))
    rw [ha1, ha2, pyStrip_structured _ _ _ _ (by decide) hqne,
      pyStrip_structured _ _ _ _ (by decide) hqne]
    exact nfkc_congr_mid nfkc hcongr _ _ _ _ hrule
  refine ⟨fun st v => rfl, hmain, ?_⟩
  unfold state_id_and_bin
  rw [hmain (("v1").data)]

end MSQ

namespace MSQ

theorem msq_canonical_nfkc_congruence_witness :
    (MSQState.mk 1 5 (("R").data) [some 5] [false]).Valid ∧
    canonical_string (fun s => s) (MSQState.mk 1 5 (("R").data) [some 5] [false])
        (("v1").data) =
      canonical_string (fun s => s) (MSQState.mk 1 5 (("R").data) [some 5] [false])
        (("v1").data) ∧
    state_id_and_bin (fun s => s) (MSQState.mk 1 5 (("R").data) [some 5] [false]) 384 =
      state_id_and_bin (fun s => s) (MSQState.mk 1 5 (("R").data) [some 5] [false]) 384 := by
  have hval : (MSQState.mk 1 5 (("R").data) [some 5] [false]).Valid := ⟨rfl, rfl⟩
  have h := msq_canonical_nfkc_congruence (fun s => s) (fun a b => rfl)
    (MSQState.mk 1 5 (("R").data) [some 5] [false])
    (MSQState.mk 1 5 (("R").data) [some 5] [false])
    hval hval rfl rfl rfl rfl rfl 384
  exact ⟨hval, h.2.1 (("v1").data), h.2.2⟩

end MSQ
